import Mathlib

/-!
# Verification of `choose_pokemon.py`

Shallow embedding of the two core functions of the repository:

* `calculate_pogo_stats` (src/choose_pokemon.py, lines 56-110): derives
  (attack, defense, stamina, CP) from a base-stat record.  Python float
  arithmetic is modelled by exact rationals (`ℚ`); Python's `round` is
  round-half-to-even (`rnd` below); `math.floor` is `Int.floor`;
  the `sqrt`-product inside the CP formula is evaluated exactly via
  `floorMulSqrt`, which computes `⌊c·√r⌋` (see `floorMulSqrt_eq`).

* `calculate_pogo_typing` (src/choose_pokemon.py, lines 113-140): folds a
  list of type tags over a three-part effectiveness table into an
  insertion-ordered accumulator (Python's `defaultdict(int)` with dict
  insertion order), then sorts the items by score descending with a
  stable sort (Python's `sorted(..., reverse=True)`), modelled by
  `List.insertionSort` with the relation `fun x y => y.2 ≤ x.2`.
-/

namespace ChoosePokemon

/-- Python's built-in `round`: round half to even (banker's rounding). -/
def rnd (q : ℚ) : ℤ :=
  if q - ⌊q⌋ < 1/2 then ⌊q⌋
  else if 1/2 < q - ⌊q⌋ then ⌊q⌋ + 1
  else if ⌊q⌋ % 2 = 0 then ⌊q⌋ else ⌊q⌋ + 1

/-- The six base-stat fields of a pokedex record (`pokemon_base` argument:
keys "HP", "Attack", "Defense", "Sp. Attack", "Sp. Defense", "Speed"). -/
structure PokemonBase where
  hp : ℤ
  attack : ℤ
  defense : ℤ
  spAttack : ℤ
  spDefense : ℤ
  speed : ℤ
deriving DecidableEq, Repr

/-- Line 82: `pogo_speed = 1 + ((pokemon_base["Speed"] - 75) / 500)`. -/
def pogoSpeed (b : PokemonBase) : ℚ :=
  1 + ((b.speed : ℚ) - 75) / 500

/-- Lines 79, 83-86: `pogo_attack`, including the `+ max_iv` term.
`round(round(2 * (7 * max(attacks) / 8 + 1 * min(attacks) / 8)) * pogo_speed) + max_iv`. -/
def pogoAttackIV (b : PokemonBase) (max_iv : ℤ) : ℤ :=
  rnd ((rnd (2 * (7 * ((max b.attack b.spAttack : ℤ) : ℚ) / 8
      + 1 * ((min b.attack b.spAttack : ℤ) : ℚ) / 8)) : ℚ) * pogoSpeed b) + max_iv

/-- Lines 80, 87-90: `pogo_defense`, including the `+ max_iv` term.
`round(round(2 * (5 * max(defenses) / 8 + 3 * min(defenses) / 8)) * pogo_speed) + max_iv`. -/
def pogoDefenseIV (b : PokemonBase) (max_iv : ℤ) : ℤ :=
  rnd ((rnd (2 * (5 * ((max b.defense b.spDefense : ℤ) : ℚ) / 8
      + 3 * ((min b.defense b.spDefense : ℤ) : ℚ) / 8)) : ℚ) * pogoSpeed b) + max_iv

/-- Line 91: `pogo_hp = floor(pokemon_base["HP"] * 1.75 + 50) + max_iv`
(`1.75 = 7/4`, exact in binary floating point). -/
def pogoHpIV (b : PokemonBase) (max_iv : ℤ) : ℤ :=
  ⌊(b.hp : ℚ) * (7/4) + 50⌋ + max_iv

/-- Exact value of `⌊c * √r⌋` for `0 ≤ c`, `0 ≤ r` (see `floorMulSqrt_eq`):
the largest integer `k ≥ 0` with `k² ≤ c²·r`.  Used to evaluate the real
expression `pogo_attack * sqrt(pogo_defense) * sqrt(pogo_hp) * cp_modifier**2 / 10`
of line 92-105 exactly, since `√d·√h = √(d·h)`. -/
def floorMulSqrt (c : ℚ) (r : ℤ) : ℤ :=
  (Nat.sqrt (⌊c ^ 2 * (r : ℚ)⌋).toNat : ℤ)

/-- Lines 92-105: `pogo_cp = floor(max([10, pogo_attack * sqrt(pogo_defense)
* sqrt(pogo_hp) * cp_modifier ** 2 / 10]))` before the ceiling nerf.
Since `10` is an integer, `⌊max (10, x)⌋ = max 10 ⌊x⌋`. -/
def pogoCpRaw (b : PokemonBase) (max_iv : ℤ) (cp_modifier : ℚ) : ℤ :=
  max 10 (floorMulSqrt ((pogoAttackIV b max_iv : ℚ) * cp_modifier ^ 2 / 10)
    (pogoDefenseIV b max_iv * pogoHpIV b max_iv))

/-- Lines 56-110: `calculate_pogo_stats`.  Returns
`(pogo_attack - max_iv, pogo_defense - max_iv, pogo_hp - max_iv, pogo_cp)`
where `pogo_cp` is nerfed by `cp_nerf` when it reaches `cp_ceiling`
(lines 107-108: `if pogo_cp >= cp_ceiling: pogo_cp = round(pogo_cp * cp_nerf)`). -/
def calculate_pogo_stats (b : PokemonBase) (max_iv : ℤ := 15)
    (cp_modifier : ℚ := 7903001 / 10000000) (cp_ceiling : ℤ := 4000)
    (cp_nerf : ℚ := 91 / 100) : ℤ × ℤ × ℤ × ℤ :=
  let pogo_attack := pogoAttackIV b max_iv
  let pogo_defense := pogoDefenseIV b max_iv
  let pogo_hp := pogoHpIV b max_iv
  let pogo_cp0 := pogoCpRaw b max_iv cp_modifier
  let pogo_cp := if cp_ceiling ≤ pogo_cp0 then rnd ((pogo_cp0 : ℚ) * cp_nerf) else pogo_cp0
  (pogo_attack - max_iv, pogo_defense - max_iv, pogo_hp - max_iv, pogo_cp)

/-- The attack formula of spec §4.1 steps 2-3 (identical to lines 82-86 of
the code, without the individual-value offset). -/
def attackBase (b : PokemonBase) : ℤ :=
  rnd ((rnd (2 * (7 * ((max b.attack b.spAttack : ℤ) : ℚ) / 8
      + 1 * ((min b.attack b.spAttack : ℤ) : ℚ) / 8)) : ℚ) * (1 + ((b.speed : ℚ) - 75) / 500))

/-- The defense formula of spec §4.1 step 4 (weights 5/8 and 3/8). -/
def defenseBase (b : PokemonBase) : ℤ :=
  rnd ((rnd (2 * (5 * ((max b.defense b.spDefense : ℤ) : ℚ) / 8
      + 3 * ((min b.defense b.spDefense : ℤ) : ℚ) / 8)) : ℚ) * (1 + ((b.speed : ℚ) - 75) / 500))

/-- The stamina formula of spec §4.1 step 5: `floor(HP × 1.75 + 50)`. -/
def staminaBase (b : PokemonBase) : ℤ :=
  ⌊(b.hp : ℚ) * (7/4) + 50⌋

/-- The base-stat record of the repository's test
(`src/test_choose_pokemon.py`, lines 10-17). -/
def pikachuBase : PokemonBase :=
  { hp := 35, attack := 55, defense := 40, spAttack := 50, spDefense := 50, speed := 90 }

/-- A maximal-stats record (all base stats at series caps), whose raw CP
exceeds the default ceiling of 4000. -/
def bigBase : PokemonBase :=
  { hp := 255, attack := 300, defense := 300, spAttack := 300, spDefense := 300, speed := 75 }

/-- Modelled from the spec (§4.1 "Rounding semantics", §9): the *single*
combined rounding `round(2 × (7 × max/8 + 1 × min/8) × speedScale)` that the
spec warns must not replace the code's two-step rounding. -/
def attackCombined (b : PokemonBase) : ℤ :=
  rnd (2 * (7 * ((max b.attack b.spAttack : ℤ) : ℚ) / 8
    + 1 * ((min b.attack b.spAttack : ℤ) : ℚ) / 8) * pogoSpeed b)

/-- A record on which the two rounding orders diverge:
pre-scale value 9.25 rounds to 9, and 9 × 1.03 = 9.27 rounds to 9, while the
combined 9.25 × 1.03 = 9.5275 rounds to 10. -/
def c8Base : PokemonBase :=
  { hp := 0, attack := 5, defense := 0, spAttack := 2, spDefense := 0, speed := 90 }

/-- Modelled from the spec: §7 prescribes `InvalidConfigError` for a
non-positive modifier or ceiling, rejected at call time.  The repository's
`calculate_pogo_stats` contains no such validation; this definition follows
the spec's words and returns `none` exactly when the spec demands rejection. -/
def calculate_pogo_stats_checked (b : PokemonBase) (max_iv : ℤ) (cp_modifier : ℚ)
    (cp_ceiling : ℤ) (cp_nerf : ℚ) : Option (ℤ × ℤ × ℤ × ℤ) :=
  if cp_modifier ≤ 0 ∨ cp_ceiling ≤ 0 then none
  else some (calculate_pogo_stats b max_iv cp_modifier cp_ceiling cp_nerf)

/-! ## The typing scorer (lines 113-140) -/

/-- The `effectiveness.json` table: three mappings, each from a defending
type name to the list of attacking type tags (`if pogo_type in v`).
Python dict iteration order is the list order; dict keys are unique. -/
structure TypeTable where
  superEffective : List (String × List String)
  notVeryEffective : List (String × List String)
  noEffect : List (String × List String)

/-- `effective_dict[k] += d` on a `defaultdict(int)`: update the first
binding of `k` in place, or append `(k, d)` (Python dicts keep insertion
order, and a new key enters at the end). -/
def bump : List (String × ℤ) → String → ℤ → List (String × ℤ)
  | [], k, d => [(k, d)]
  | (k', v) :: rest, k, d =>
    if k' = k then (k', v + d) :: rest else (k', v) :: bump rest k d

/-- One `for k, v in mapping.items(): if pogo_type in v: effective_dict[k] += d`
loop (lines 128-138). -/
def passTable (tbl : List (String × List String)) (t : String) (d : ℤ)
    (acc : List (String × ℤ)) : List (String × ℤ) :=
  tbl.foldl (fun acc kv => if t ∈ kv.2 then bump acc kv.1 d else acc) acc

/-- The body of the `for pogo_type in types` loop (lines 127-138):
+1 over "super effective", −1 over "not very effective", −2 over "no effect". -/
def processType (table : TypeTable) (acc : List (String × ℤ)) (t : String) :
    List (String × ℤ) :=
  passTable table.noEffect t (-2)
    (passTable table.notVeryEffective t (-1)
      (passTable table.superEffective t 1 acc))

/-- The `effective_dict` accumulator after the whole loop nest (lines 125-138). -/
def accumulate (types : List String) (table : TypeTable) : List (String × ℤ) :=
  types.foldl (processType table) []

/-- Lines 113-140: `calculate_pogo_typing`.  Line 140's
`sorted(effective_dict.items(), key=lambda item: item[1], reverse=True)` is a
stable descending sort by score, modelled by insertion sort with the
relation `fun x y => y.2 ≤ x.2` (an earlier item is kept before a later one
of equal score). -/
def calculate_pogo_typing (types : List String) (table : TypeTable) :
    List (String × ℤ) :=
  List.insertionSort (fun x y => y.2 ≤ x.2) (accumulate types table)

/-- Association-list lookup with default `[]`: the list of attacking tags a
mapping of the table lists against defending type `d`. -/
def listedAgainst : List (String × List String) → String → List String
  | [], _ => []
  | (k, v) :: rest, d => if d = k then v else listedAgainst rest d

/-- Accumulator lookup with default 0 (a `defaultdict(int)` read). -/
def scoreOf : List (String × ℤ) → String → ℤ
  | [], _ => 0
  | (k, v) :: rest, d => if d = k then v else scoreOf rest d

/-- The contribution of one input tag `t` to the score of defending type `d`:
+1 when the "super effective" mapping lists `t` against `d`, −1 for
"not very effective", −2 for "no effect" (additively, per claim C5). -/
def contrib (table : TypeTable) (d : String) (t : String) : ℤ :=
  (if t ∈ listedAgainst table.superEffective d then 1 else 0)
  + (if t ∈ listedAgainst table.notVeryEffective d then -1 else 0)
  + (if t ∈ listedAgainst table.noEffect d then -2 else 0)

/-- A degenerate table listing "Electric" both as "not very effective" and
as "no effect" against "Ground" (possible for an arbitrary table, though not
for a real effectiveness table): one tag then contributes −3. -/
def badTable : TypeTable :=
  { superEffective := []
    notVeryEffective := [("Ground", ["Electric"])]
    noEffect := [("Ground", ["Electric"])] }

/-- A well-formed fragment of the real table: Electric is super effective
against Water and Flying and has no effect against Ground. -/
def goodTable : TypeTable :=
  { superEffective := [("Water", ["Electric"]), ("Flying", ["Electric"])]
    notVeryEffective := []
    noEffect := [("Ground", ["Electric"])] }

/-! ## Basic lemmas about `rnd` -/

theorem floor_le_rnd (q : ℚ) : ⌊q⌋ ≤ rnd q := by
  unfold rnd; split_ifs <;> omega

theorem rnd_le_floor_add_one (q : ℚ) : rnd q ≤ ⌊q⌋ + 1 := by
  unfold rnd; split_ifs <;> omega

theorem rnd_cast_le (q : ℚ) : (rnd q : ℚ) ≤ q + 1/2 := by
  have h1 := Int.floor_le q
  have h2 := Int.lt_floor_add_one q
  unfold rnd; split_ifs <;> push_cast <;> linarith

theorem le_rnd_cast (q : ℚ) : q - 1/2 ≤ (rnd q : ℚ) := by
  have h1 := Int.floor_le q
  have h2 := Int.lt_floor_add_one q
  unfold rnd; split_ifs <;> push_cast <;> linarith

theorem rnd_mono {x y : ℚ} (h : x ≤ y) : rnd x ≤ rnd y := by
  by_cases hf : ⌊x⌋ < ⌊y⌋
  · calc rnd x ≤ ⌊x⌋ + 1 := rnd_le_floor_add_one x
    _ ≤ ⌊y⌋ := hf
    _ ≤ rnd y := floor_le_rnd y
  · have hfe : ⌊x⌋ = ⌊y⌋ := le_antisymm (Int.floor_le_floor h) (not_lt.1 hf)
    unfold rnd
    rw [hfe]
    split_ifs <;> first | omega | linarith

/-! ## Evaluation lemmas for `rnd` on concrete rationals -/

theorem rnd_eq_of_lt_half (z : ℤ) (q : ℚ) (h1 : (z : ℚ) ≤ q)
    (h2 : q < (z : ℚ) + 1/2) : rnd q = z := by
  have hf : ⌊q⌋ = z := Int.floor_eq_iff.2 ⟨h1, by linarith⟩
  unfold rnd
  rw [hf, if_pos (by linarith)]

theorem rnd_eq_of_gt_half (z : ℤ) (q : ℚ) (h1 : (z : ℚ) - 1/2 < q)
    (h2 : q < (z : ℚ)) : rnd q = z := by
  have hf : ⌊q⌋ = z - 1 := Int.floor_eq_iff.2 ⟨by push_cast; linarith, by push_cast; linarith⟩
  unfold rnd
  rw [hf, if_neg (by push_cast; linarith), if_pos (by push_cast; linarith)]
  omega

theorem rnd_half_even (z : ℤ) (hz : z % 2 = 0) : rnd ((z : ℚ) + 1/2) = z := by
  have hf : ⌊(z : ℚ) + 1/2⌋ = z := Int.floor_eq_iff.2 ⟨by linarith, by norm_num⟩
  unfold rnd
  rw [hf, if_neg (by linarith), if_neg (by linarith), if_pos hz]

theorem rnd_intCast (z : ℤ) : rnd (z : ℚ) = z :=
  rnd_eq_of_lt_half z _ le_rfl (by norm_num)

/-! ## Evaluation lemma for `floorMulSqrt` -/

theorem floorMulSqrt_eq_of (c : ℚ) (r : ℤ) (k : ℕ)
    (h1 : ((k : ℚ)) ^ 2 ≤ c ^ 2 * (r : ℚ)) (h2 : c ^ 2 * (r : ℚ) < ((k : ℚ) + 1) ^ 2) :
    floorMulSqrt c r = k := by
  unfold floorMulSqrt
  have hk1 : (k : ℤ) ^ 2 ≤ ⌊c ^ 2 * (r : ℚ)⌋ := Int.le_floor.2 (by push_cast; exact h1)
  have hk2 : ⌊c ^ 2 * (r : ℚ)⌋ < ((k : ℤ) + 1) ^ 2 := Int.floor_lt.2 (by push_cast; exact h2)
  have h0 : (0 : ℤ) ≤ ⌊c ^ 2 * (r : ℚ)⌋ := le_trans (sq_nonneg _) hk1
  have ht : ((⌊c ^ 2 * (r : ℚ)⌋.toNat : ℤ)) = ⌊c ^ 2 * (r : ℚ)⌋ := Int.toNat_of_nonneg h0
  have hs : Nat.sqrt (⌊c ^ 2 * (r : ℚ)⌋.toNat) = k := by
    refine (Nat.eq_sqrt.2 ⟨?_, ?_⟩).symm
    · have : ((k * k : ℕ) : ℤ) ≤ (⌊c ^ 2 * (r : ℚ)⌋.toNat : ℤ) := by
        rw [ht]; push_cast; nlinarith [hk1]
      exact_mod_cast this
    · have : ((⌊c ^ 2 * (r : ℚ)⌋.toNat : ℤ)) < (((k + 1) * (k + 1) : ℕ) : ℤ) := by
        rw [ht]; push_cast; nlinarith [hk2]
      exact_mod_cast this
  rw [hs]

/-- `floorMulSqrt` is the exact floor of the real expression `c·√r` of the
Python source, for a non-negative coefficient and radicand — the only
regime in which `math.sqrt` is defined. -/
theorem floorMulSqrt_eq (c : ℚ) (r : ℤ) (hc : 0 ≤ c) (hr : 0 ≤ r) :
    floorMulSqrt c r = ⌊(c : ℝ) * Real.sqrt (r : ℝ)⌋ := by
  have hcr : (0 : ℝ) ≤ (c : ℝ) := by exact_mod_cast hc
  set q : ℚ := c ^ 2 * (r : ℚ) with hqdef
  have hq0 : (0 : ℚ) ≤ q := mul_nonneg (sq_nonneg c) (by exact_mod_cast hr)
  have hf0 : (0 : ℤ) ≤ ⌊q⌋ := Int.floor_nonneg.2 hq0
  have htn : ((⌊q⌋.toNat : ℤ)) = ⌊q⌋ := Int.toNat_of_nonneg hf0
  have hsq : (c : ℝ) * Real.sqrt (r : ℝ) = Real.sqrt ((q : ℚ) : ℝ) := by
    have hcast : ((q : ℚ) : ℝ) = ((c : ℝ)) ^ 2 * (r : ℝ) := by
      rw [hqdef]
      push_cast
      ring
    rw [hcast, Real.sqrt_mul (sq_nonneg _), Real.sqrt_sq hcr]
  rw [hsq]
  show ((Nat.sqrt ⌊q⌋.toNat : ℕ) : ℤ) = ⌊Real.sqrt ((q : ℚ) : ℝ)⌋
  set n : ℕ := ⌊q⌋.toNat with hndef
  set k : ℕ := Nat.sqrt n with hkdef
  have hk1 : ((k * k : ℕ) : ℚ) ≤ q := by
    have ha : (k * k : ℕ) ≤ n := Nat.sqrt_le n
    have hb : ((n : ℕ) : ℚ) ≤ q := by
      have hfl := Int.floor_le q
      have : ((n : ℕ) : ℚ) = ((⌊q⌋ : ℤ) : ℚ) := by
        exact_mod_cast congrArg (fun z : ℤ => (z : ℚ)) htn
      rw [this]
      exact hfl
    calc ((k * k : ℕ) : ℚ) ≤ ((n : ℕ) : ℚ) := by exact_mod_cast ha
      _ ≤ q := hb
  have hk2 : q < (((k + 1) * (k + 1) : ℕ) : ℚ) := by
    have hc3 : n < (k + 1) * (k + 1) := Nat.lt_succ_sqrt n
    have h6 : ⌊q⌋ + 1 ≤ (((k + 1) * (k + 1) : ℕ) : ℤ) := by
      rw [← htn]
      exact_mod_cast hc3
    calc q < (⌊q⌋ : ℚ) + 1 := Int.lt_floor_add_one q
      _ ≤ (((k + 1) * (k + 1) : ℕ) : ℚ) := by exact_mod_cast h6
  symm
  rw [Int.floor_eq_iff]
  constructor
  · apply Real.le_sqrt_of_sq_le
    have : (((k : ℕ) : ℝ)) ^ 2 ≤ ((q : ℚ) : ℝ) := by
      have hcast : (((k : ℕ) : ℝ)) ^ 2 = (((k * k : ℕ) : ℚ) : ℝ) := by
        push_cast
        ring
      rw [hcast]
      exact_mod_cast hk1
    exact_mod_cast this
  · have hpos : (0 : ℝ) < (((k : ℕ) : ℤ) : ℝ) + 1 := by positivity
    rw [Real.sqrt_lt' hpos]
    have hcast : ((((k : ℕ) : ℤ) : ℝ) + 1) ^ 2 = ((((k + 1) * (k + 1) : ℕ) : ℚ) : ℝ) := by
      push_cast
      ring
    rw [hcast]
    exact_mod_cast hk2

/-! ## Unfolding lemma for `calculate_pogo_stats` -/

theorem calculate_pogo_stats_def (b : PokemonBase) (max_iv : ℤ) (cp_modifier : ℚ)
    (cp_ceiling : ℤ) (cp_nerf : ℚ) :
    calculate_pogo_stats b max_iv cp_modifier cp_ceiling cp_nerf =
      (pogoAttackIV b max_iv - max_iv, pogoDefenseIV b max_iv - max_iv,
        pogoHpIV b max_iv - max_iv,
        if cp_ceiling ≤ pogoCpRaw b max_iv cp_modifier
          then rnd ((pogoCpRaw b max_iv cp_modifier : ℚ) * cp_nerf)
          else pogoCpRaw b max_iv cp_modifier) := rfl

/-! ## Concrete evaluation on the test record -/

theorem pogoSpeed_pikachu : pogoSpeed pikachuBase = 103/100 := by
  unfold pogoSpeed pikachuBase
  norm_num

theorem pogoAttackIV_pikachu : pogoAttackIV pikachuBase 15 = 127 := by
  unfold pogoAttackIV
  have hmax : max pikachuBase.attack pikachuBase.spAttack = 55 := by decide
  have hmin : min pikachuBase.attack pikachuBase.spAttack = 50 := by decide
  rw [hmax, hmin, pogoSpeed_pikachu]
  have h1 : rnd (2 * (7 * ((55 : ℤ) : ℚ) / 8 + 1 * ((50 : ℤ) : ℚ) / 8)) = 109 :=
    rnd_eq_of_gt_half _ _ (by push_cast; norm_num) (by push_cast; norm_num)
  rw [h1]
  have h2 : rnd (((109 : ℤ) : ℚ) * (103/100)) = 112 :=
    rnd_eq_of_lt_half _ _ (by push_cast; norm_num) (by push_cast; norm_num)
  rw [h2]
  decide

theorem pogoDefenseIV_pikachu : pogoDefenseIV pikachuBase 15 = 110 := by
  unfold pogoDefenseIV
  have hmax : max pikachuBase.defense pikachuBase.spDefense = 50 := by decide
  have hmin : min pikachuBase.defense pikachuBase.spDefense = 40 := by decide
  rw [hmax, hmin, pogoSpeed_pikachu]
  have h1 : rnd (2 * (5 * ((50 : ℤ) : ℚ) / 8 + 3 * ((40 : ℤ) : ℚ) / 8)) = 92 := by
    have he : (2 * (5 * ((50 : ℤ) : ℚ) / 8 + 3 * ((40 : ℤ) : ℚ) / 8)) = ((92 : ℤ) : ℚ) + 1/2 := by
      push_cast; norm_num
    rw [he, rnd_half_even 92 (by decide)]
  rw [h1]
  have h2 : rnd (((92 : ℤ) : ℚ) * (103/100)) = 95 :=
    rnd_eq_of_gt_half _ _ (by push_cast; norm_num) (by push_cast; norm_num)
  rw [h2]
  decide

theorem pogoHpIV_pikachu : pogoHpIV pikachuBase 15 = 126 := by
  unfold pogoHpIV
  have h : ((pikachuBase.hp : ℚ)) * (7/4) + 50 = 445/4 := by
    norm_num [pikachuBase]
  rw [h]
  norm_num

theorem pogoCpRaw_pikachu : pogoCpRaw pikachuBase 15 (7903001/10000000) = 933 := by
  unfold pogoCpRaw
  rw [pogoAttackIV_pikachu, pogoDefenseIV_pikachu, pogoHpIV_pikachu]
  have h : floorMulSqrt (((127 : ℤ) : ℚ) * (7903001/10000000) ^ 2 / 10) ((110 : ℤ) * 126)
      = ((933 : ℕ) : ℤ) :=
    floorMulSqrt_eq_of _ _ 933 (by push_cast; norm_num) (by push_cast; norm_num)
  rw [h]
  decide

theorem calculate_pogo_stats_pikachu :
    calculate_pogo_stats pikachuBase = (112, 95, 111, 933) := by
  rw [calculate_pogo_stats_def, pogoAttackIV_pikachu, pogoDefenseIV_pikachu,
    pogoHpIV_pikachu, pogoCpRaw_pikachu]
  norm_num

/-- Projection of the attack component (definitional). -/
theorem attack_component (b : PokemonBase) (max_iv : ℤ) (cp_modifier : ℚ)
    (cp_ceiling : ℤ) (cp_nerf : ℚ) :
    (calculate_pogo_stats b max_iv cp_modifier cp_ceiling cp_nerf).1 =
      pogoAttackIV b max_iv - max_iv := rfl

/-- Projection of the CP component (definitional). -/
theorem cp_component (b : PokemonBase) (max_iv : ℤ) (cp_modifier : ℚ)
    (cp_ceiling : ℤ) (cp_nerf : ℚ) :
    (calculate_pogo_stats b max_iv cp_modifier cp_ceiling cp_nerf).2.2.2 =
      if cp_ceiling ≤ pogoCpRaw b max_iv cp_modifier
        then rnd ((pogoCpRaw b max_iv cp_modifier : ℚ) * cp_nerf)
        else pogoCpRaw b max_iv cp_modifier := rfl

theorem pogoSpeed_big : pogoSpeed bigBase = 1 := by
  unfold pogoSpeed bigBase
  norm_num

theorem pogoAttackIV_big : pogoAttackIV bigBase 15 = 615 := by
  unfold pogoAttackIV
  have hmax : max bigBase.attack bigBase.spAttack = 300 := by decide
  have hmin : min bigBase.attack bigBase.spAttack = 300 := by decide
  rw [hmax, hmin, pogoSpeed_big]
  have he : (2 * (7 * ((300 : ℤ) : ℚ) / 8 + 1 * ((300 : ℤ) : ℚ) / 8)) = ((600 : ℤ) : ℚ) := by
    push_cast; norm_num
  rw [he, rnd_intCast, mul_one, rnd_intCast]
  decide

theorem pogoDefenseIV_big : pogoDefenseIV bigBase 15 = 615 := by
  unfold pogoDefenseIV
  have hmax : max bigBase.defense bigBase.spDefense = 300 := by decide
  have hmin : min bigBase.defense bigBase.spDefense = 300 := by decide
  rw [hmax, hmin, pogoSpeed_big]
  have he : (2 * (5 * ((300 : ℤ) : ℚ) / 8 + 3 * ((300 : ℤ) : ℚ) / 8)) = ((600 : ℤ) : ℚ) := by
    push_cast; norm_num
  rw [he, rnd_intCast, mul_one, rnd_intCast]
  decide

theorem pogoHpIV_big : pogoHpIV bigBase 15 = 511 := by
  unfold pogoHpIV
  have h : ((bigBase.hp : ℚ)) * (7/4) + 50 = 1985/4 := by
    norm_num [bigBase]
  rw [h]
  norm_num

theorem pogoCpRaw_big : pogoCpRaw bigBase 15 (7903001/10000000) = 21533 := by
  unfold pogoCpRaw
  rw [pogoAttackIV_big, pogoDefenseIV_big, pogoHpIV_big]
  have h : floorMulSqrt (((615 : ℤ) : ℚ) * (7903001/10000000) ^ 2 / 10) ((615 : ℤ) * 511)
      = ((21533 : ℕ) : ℤ) :=
    floorMulSqrt_eq_of _ _ 21533 (by push_cast; norm_num) (by push_cast; norm_num)
  rw [h]
  decide

/-! ## Claims -/

/-- C1: for every base-stat record, the first three values returned by
`calculate_pogo_stats` are the base (pre-individual-value) numbers, given by
the two-step-rounded attack and defense formulas and `⌊HP × 1.75 + 50⌋`:
the `max_iv` offset is added only inside the CP computation and is
subtracted back out of the three returned values (so they do not depend on
`max_iv` or on any of the CP configuration values). -/
theorem C1_returned_base_values (b : PokemonBase) (max_iv : ℤ) (cp_modifier : ℚ)
    (cp_ceiling : ℤ) (cp_nerf : ℚ) :
    (calculate_pogo_stats b max_iv cp_modifier cp_ceiling cp_nerf).1 = attackBase b ∧
    (calculate_pogo_stats b max_iv cp_modifier cp_ceiling cp_nerf).2.1 = defenseBase b ∧
    (calculate_pogo_stats b max_iv cp_modifier cp_ceiling cp_nerf).2.2.1 = staminaBase b := by
  rw [calculate_pogo_stats_def]
  refine ⟨?_, ?_, ?_⟩ <;>
    simp [pogoAttackIV, pogoDefenseIV, pogoHpIV, attackBase, defenseBase, staminaBase, pogoSpeed]

/-- C2: on the test base-stat record {HP:35, Attack:55, Defense:40,
Sp.Attack:50, Sp.Defense:50, Speed:90} with the default configuration,
`calculate_pogo_stats` returns attack within 112±1, defense within 96±1,
stamina within 111±1 and CP within 938±10 (the exact values being
(112, 95, 111, 933)). -/
theorem C2_pikachu_within_tolerances :
    |(calculate_pogo_stats pikachuBase).1 - 112| ≤ 1 ∧
    |(calculate_pogo_stats pikachuBase).2.1 - 96| ≤ 1 ∧
    |(calculate_pogo_stats pikachuBase).2.2.1 - 111| ≤ 1 ∧
    |(calculate_pogo_stats pikachuBase).2.2.2 - 938| ≤ 10 := by
  rw [calculate_pogo_stats_pikachu]
  norm_num

/-- C3: for every base-stat record, with the default configuration
(cpCeiling = 4000, cpNerf = 0.91), the returned CP equals
`round(rawCp × 0.91)` when the floored raw CP reaches the ceiling and
equals the raw CP otherwise; in the nerf case the returned CP is strictly
smaller than the raw CP. -/
theorem C3_ceiling_nerf (b : PokemonBase) :
    (calculate_pogo_stats b).2.2.2 =
      (if 4000 ≤ pogoCpRaw b 15 (7903001/10000000)
        then rnd ((pogoCpRaw b 15 (7903001/10000000) : ℚ) * (91/100))
        else pogoCpRaw b 15 (7903001/10000000)) ∧
    (4000 ≤ pogoCpRaw b 15 (7903001/10000000) →
      (calculate_pogo_stats b).2.2.2 < pogoCpRaw b 15 (7903001/10000000)) := by
  constructor
  · exact cp_component b 15 (7903001/10000000) 4000 (91/100)
  · intro h
    rw [cp_component, if_pos h]
    have hr : (4000 : ℚ) ≤ ((pogoCpRaw b 15 (7903001/10000000) : ℤ) : ℚ) := by
      exact_mod_cast h
    have hup := rnd_cast_le ((pogoCpRaw b 15 (7903001/10000000) : ℚ) * (91/100))
    have hlt : (rnd ((pogoCpRaw b 15 (7903001/10000000) : ℚ) * (91/100)) : ℚ) <
        ((pogoCpRaw b 15 (7903001/10000000) : ℤ) : ℚ) := by linarith
    exact_mod_cast hlt

/-- C3 witness: the maximal-stats record has raw CP 21533 ≥ 4000, and its
returned CP is strictly smaller than the raw CP. -/
theorem C3_ceiling_nerf_witness :
    (calculate_pogo_stats bigBase).2.2.2 < pogoCpRaw bigBase 15 (7903001/10000000) :=
  (C3_ceiling_nerf bigBase).2 (by rw [pogoCpRaw_big]; norm_num)

/-- C4: for every base-stat record with non-negative fields, the CP returned
by `calculate_pogo_stats` under the default configuration is at least 10. -/
theorem C4_cp_at_least_ten (b : PokemonBase) (h1 : 0 ≤ b.hp) (h2 : 0 ≤ b.attack)
    (h3 : 0 ≤ b.defense) (h4 : 0 ≤ b.spAttack) (h5 : 0 ≤ b.spDefense) (h6 : 0 ≤ b.speed) :
    10 ≤ (calculate_pogo_stats b).2.2.2 := by
  rw [cp_component]
  split_ifs with h
  · have hr : (4000 : ℚ) ≤ ((pogoCpRaw b 15 (7903001/10000000) : ℤ) : ℚ) := by
      exact_mod_cast h
    have hlow := le_rnd_cast ((pogoCpRaw b 15 (7903001/10000000) : ℚ) * (91/100))
    have hten : (10 : ℚ) ≤ (rnd ((pogoCpRaw b 15 (7903001/10000000) : ℚ) * (91/100)) : ℚ) := by
      linarith
    exact_mod_cast hten
  · exact le_max_left 10 _

/-- C4 witness: applied to the test record (all fields non-negative). -/
theorem C4_cp_at_least_ten_witness : 10 ≤ (calculate_pogo_stats pikachuBase).2.2.2 :=
  C4_cp_at_least_ten pikachuBase (by decide) (by decide) (by decide) (by decide)
    (by decide) (by decide)

/-- The speed scale is non-negative whenever the Speed stat is. -/
theorem pogoSpeed_nonneg (b : PokemonBase) (h : 0 ≤ b.speed) : 0 ≤ pogoSpeed b := by
  unfold pogoSpeed
  have hc : (0 : ℚ) ≤ (b.speed : ℚ) := by exact_mod_cast h
  linarith

/-- Monotonicity of `pogoAttackIV` in the two attack components, for records
agreeing on Speed. -/
theorem pogoAttackIV_mono (b b' : PokemonBase) (hsp : b'.speed = b.speed)
    (h0 : 0 ≤ b.speed) (hmax : max b.attack b.spAttack ≤ max b'.attack b'.spAttack)
    (hmin : min b.attack b.spAttack ≤ min b'.attack b'.spAttack) (max_iv : ℤ) :
    pogoAttackIV b max_iv ≤ pogoAttackIV b' max_iv := by
  unfold pogoAttackIV
  have hspeq : pogoSpeed b' = pogoSpeed b := by
    unfold pogoSpeed
    rw [hsp]
  rw [hspeq]
  apply add_le_add_right
  have hmaxq : ((max b.attack b.spAttack : ℤ) : ℚ) ≤ ((max b'.attack b'.spAttack : ℤ) : ℚ) := by
    exact_mod_cast hmax
  have hminq : ((min b.attack b.spAttack : ℤ) : ℚ) ≤ ((min b'.attack b'.spAttack : ℤ) : ℚ) := by
    exact_mod_cast hmin
  have hinner : rnd (2 * (7 * ((max b.attack b.spAttack : ℤ) : ℚ) / 8
      + 1 * ((min b.attack b.spAttack : ℤ) : ℚ) / 8)) ≤
      rnd (2 * (7 * ((max b'.attack b'.spAttack : ℤ) : ℚ) / 8
      + 1 * ((min b'.attack b'.spAttack : ℤ) : ℚ) / 8)) := rnd_mono (by linarith)
  exact rnd_mono (mul_le_mul_of_nonneg_right (Int.cast_le.2 hinner) (pogoSpeed_nonneg b h0))

/-- C7: for non-negative base stats, holding HP, Defense, Sp.Defense and
Speed fixed, (weakly) increasing the Attack and/or Sp.Attack field weakly
increases the derived attack returned by `calculate_pogo_stats`, for every
configuration. -/
theorem C7_attack_monotone (b : PokemonBase) (a' s' : ℤ)
    (hspe : 0 ≤ b.speed) (ha : b.attack ≤ a') (hs : b.spAttack ≤ s')
    (max_iv : ℤ) (cp_modifier : ℚ) (cp_ceiling : ℤ) (cp_nerf : ℚ) :
    (calculate_pogo_stats b max_iv cp_modifier cp_ceiling cp_nerf).1 ≤
    (calculate_pogo_stats { b with attack := a', spAttack := s' }
      max_iv cp_modifier cp_ceiling cp_nerf).1 := by
  rw [attack_component, attack_component]
  apply sub_le_sub_right
  exact pogoAttackIV_mono b { b with attack := a', spAttack := s' } rfl hspe
    (max_le_max ha hs) (min_le_min ha hs) max_iv

/-- C7 witness: raising Attack 55→60 and Sp.Attack 50→55 on the test record
does not decrease the derived attack (default configuration values). -/
theorem C7_attack_monotone_witness :
    (calculate_pogo_stats pikachuBase 15 (7903001/10000000) 4000 (91/100)).1 ≤
    (calculate_pogo_stats { pikachuBase with attack := 60, spAttack := 55 }
      15 (7903001/10000000) 4000 (91/100)).1 :=
  C7_attack_monotone pikachuBase 60 55 (by decide) (by decide) (by decide)
    15 (7903001/10000000) 4000 (91/100)

theorem pogoSpeed_c8 : pogoSpeed c8Base = 103/100 := by
  unfold pogoSpeed c8Base
  norm_num

/-- C8: the code's two-step rounding is not equivalent to the single
combined rounding: on the record (Attack 5, Sp.Attack 2, Speed 90) the
code's derived attack is 9 while the combined rounding yields 10. -/
theorem C8_two_step_rounding_differs :
    (calculate_pogo_stats c8Base).1 ≠ attackCombined c8Base := by
  have h1 : (calculate_pogo_stats c8Base).1 = 9 := by
    rw [attack_component]
    unfold pogoAttackIV
    have hmax : max c8Base.attack c8Base.spAttack = 5 := by decide
    have hmin : min c8Base.attack c8Base.spAttack = 2 := by decide
    rw [hmax, hmin, pogoSpeed_c8]
    have e1 : rnd (2 * (7 * ((5 : ℤ) : ℚ) / 8 + 1 * ((2 : ℤ) : ℚ) / 8)) = 9 :=
      rnd_eq_of_lt_half _ _ (by push_cast; norm_num) (by push_cast; norm_num)
    rw [e1]
    have e2 : rnd (((9 : ℤ) : ℚ) * (103/100)) = 9 :=
      rnd_eq_of_lt_half _ _ (by push_cast; norm_num) (by push_cast; norm_num)
    rw [e2]
    decide
  have h2 : attackCombined c8Base = 10 := by
    unfold attackCombined
    have hmax : max c8Base.attack c8Base.spAttack = 5 := by decide
    have hmin : min c8Base.attack c8Base.spAttack = 2 := by decide
    rw [hmax, hmin, pogoSpeed_c8]
    exact rnd_eq_of_gt_half _ _ (by push_cast; norm_num) (by push_cast; norm_num)
  rw [h1, h2]
  decide

/-- With `cp_modifier = 0` the sqrt-product term is 0, the raw CP is the
floor value 10, and the ceiling 0 triggers the nerf: `round(10 × 0.91) = 9`.
The code returns these stats instead of failing. -/
theorem stats_at_invalid_config :
    calculate_pogo_stats pikachuBase 15 0 0 (91/100) = (112, 95, 111, 9) := by
  have hraw : pogoCpRaw pikachuBase 15 0 = 10 := by
    unfold pogoCpRaw
    have h : floorMulSqrt ((pogoAttackIV pikachuBase 15 : ℚ) * (0 : ℚ) ^ 2 / 10)
        (pogoDefenseIV pikachuBase 15 * pogoHpIV pikachuBase 15) = ((0 : ℕ) : ℤ) :=
      floorMulSqrt_eq_of _ _ 0 (by push_cast; norm_num) (by
        push_cast
        norm_num)
    rw [h]
    decide
  rw [calculate_pogo_stats_def, pogoAttackIV_pikachu, pogoDefenseIV_pikachu,
    pogoHpIV_pikachu, hraw, if_pos (by norm_num : (0:ℤ) ≤ 10)]
  have e : rnd (((10 : ℤ) : ℚ) * (91/100)) = 9 :=
    rnd_eq_of_lt_half _ _ (by push_cast; norm_num) (by push_cast; norm_num)
  rw [e]
  decide

/-- C9 counterexample: at the invalid configuration `cp_modifier = 0`,
`cp_ceiling = 0`, the spec-modelled checked function rejects the call
(`none`), but the code's `calculate_pogo_stats` returns derived stats
`(112, 95, 111, 9)` — it does not fail with an error. -/
theorem C9_counterexample :
    calculate_pogo_stats_checked pikachuBase 15 0 0 (91/100) = none ∧
    calculate_pogo_stats pikachuBase 15 0 0 (91/100) = (112, 95, 111, 9) := by
  constructor
  · unfold calculate_pogo_stats_checked
    rw [if_pos (Or.inl le_rfl)]
  · exact stats_at_invalid_config

/-- C9 (amended): `calculate_pogo_stats` performs no configuration
validation — called with a non-positive `cp_modifier` and `cp_ceiling` it
still returns derived stats (on the test record: `(112, 95, 111, 9)`). -/
theorem C9_no_config_validation :
    calculate_pogo_stats pikachuBase 15 0 0 (91/100) = (112, 95, 111, 9) :=
  stats_at_invalid_config

/-! ## Lemmas about the typing accumulator -/

theorem scoreOf_bump (acc : List (String × ℤ)) (k : String) (d : ℤ) (x : String) :
    scoreOf (bump acc k d) x = scoreOf acc x + (if x = k then d else 0) := by
  induction acc with
  | nil =>
    simp only [bump, scoreOf]
    split_ifs <;> simp
  | cons hd tl ih =>
    obtain ⟨k', v⟩ := hd
    by_cases hk : k' = k
    · subst hk
      simp only [bump, if_pos rfl, scoreOf]
      split_ifs with hx <;> simp
    · simp only [bump, if_neg hk, scoreOf]
      by_cases hx : x = k'
      · rw [if_pos hx, if_pos hx, if_neg (fun h => hk (hx.symm.trans h)), add_zero]
      · rw [if_neg hx, if_neg hx]
        exact ih

theorem listedAgainst_of_not_mem (tbl : List (String × List String)) (x : String)
    (h : x ∉ tbl.map Prod.fst) : listedAgainst tbl x = [] := by
  induction tbl with
  | nil => rfl
  | cons hd tl ih =>
    obtain ⟨k, v⟩ := hd
    simp only [List.map_cons, List.mem_cons, not_or] at h
    simp only [listedAgainst, if_neg h.1]
    exact ih h.2

theorem scoreOf_passTable : ∀ (tbl : List (String × List String)) (t : String) (d : ℤ)
    (acc : List (String × ℤ)) (x : String), (tbl.map Prod.fst).Nodup →
    scoreOf (passTable tbl t d acc) x =
      scoreOf acc x + (if t ∈ listedAgainst tbl x then d else 0)
  | [], t, d, acc, x, _ => by simp [passTable, listedAgainst]
  | (k, v) :: tl, t, d, acc, x, hnd => by
    simp only [List.map_cons, List.nodup_cons] at hnd
    obtain ⟨hk, hnd'⟩ := hnd
    have hstep : passTable ((k, v) :: tl) t d acc
        = passTable tl t d (if t ∈ v then bump acc k d else acc) := by
      simp [passTable]
    rw [hstep, scoreOf_passTable tl t d _ x hnd']
    by_cases hx : x = k
    · subst hx
      have hsc : scoreOf (if t ∈ v then bump acc x d else acc) x
          = scoreOf acc x + (if t ∈ v then d else 0) := by
        split_ifs with htv
        · rw [scoreOf_bump, if_pos rfl]
        · rw [add_zero]
      rw [hsc, listedAgainst_of_not_mem tl x hk]
      simp [listedAgainst]
    · have hsc : scoreOf (if t ∈ v then bump acc k d else acc) x = scoreOf acc x := by
        split_ifs with htv
        · rw [scoreOf_bump, if_neg hx, add_zero]
        · rfl
      rw [hsc]
      simp only [listedAgainst, if_neg hx]

theorem scoreOf_processType (table : TypeTable) (acc : List (String × ℤ)) (t : String)
    (x : String) (h1 : (table.superEffective.map Prod.fst).Nodup)
    (h2 : (table.notVeryEffective.map Prod.fst).Nodup)
    (h3 : (table.noEffect.map Prod.fst).Nodup) :
    scoreOf (processType table acc t) x = scoreOf acc x + contrib table x t := by
  unfold processType contrib
  rw [scoreOf_passTable _ _ _ _ _ h3, scoreOf_passTable _ _ _ _ _ h2,
    scoreOf_passTable _ _ _ _ _ h1]
  ring

theorem scoreOf_foldl_processType (types : List String) (table : TypeTable)
    (acc : List (String × ℤ)) (x : String)
    (h1 : (table.superEffective.map Prod.fst).Nodup)
    (h2 : (table.notVeryEffective.map Prod.fst).Nodup)
    (h3 : (table.noEffect.map Prod.fst).Nodup) :
    scoreOf (types.foldl (processType table) acc) x =
      scoreOf acc x + (types.map (contrib table x)).sum := by
  induction types generalizing acc with
  | nil => simp
  | cons t ts ih =>
    simp only [List.foldl_cons, List.map_cons, List.sum_cons]
    rw [ih (processType table acc t), scoreOf_processType table acc t x h1 h2 h3]
    ring

theorem scoreOf_accumulate (types : List String) (table : TypeTable) (x : String)
    (h1 : (table.superEffective.map Prod.fst).Nodup)
    (h2 : (table.notVeryEffective.map Prod.fst).Nodup)
    (h3 : (table.noEffect.map Prod.fst).Nodup) :
    scoreOf (accumulate types table) x = (types.map (contrib table x)).sum := by
  unfold accumulate
  rw [scoreOf_foldl_processType types table [] x h1 h2 h3]
  simp [scoreOf]

theorem mem_keys_bump (acc : List (String × ℤ)) (k : String) (d : ℤ) (x : String) :
    x ∈ (bump acc k d).map Prod.fst ↔ x ∈ acc.map Prod.fst ∨ x = k := by
  induction acc with
  | nil => simp [bump]
  | cons hd tl ih =>
    obtain ⟨k', v⟩ := hd
    by_cases hk : k' = k
    · subst hk
      have hb : bump ((k', v) :: tl) k' d = (k', v + d) :: tl := by
        simp [bump]
      rw [hb]
      simp only [List.map_cons, List.mem_cons]
      tauto
    · have hb : bump ((k', v) :: tl) k d = (k', v) :: bump tl k d := by
        simp only [bump]
        rw [if_neg hk]
      rw [hb]
      simp only [List.map_cons, List.mem_cons, ih]
      tauto

theorem nodup_keys_bump (acc : List (String × ℤ)) (k : String) (d : ℤ)
    (h : (acc.map Prod.fst).Nodup) : ((bump acc k d).map Prod.fst).Nodup := by
  induction acc with
  | nil => simp [bump]
  | cons hd tl ih =>
    obtain ⟨k', v⟩ := hd
    simp only [List.map_cons, List.nodup_cons] at h
    obtain ⟨hk', hnd⟩ := h
    by_cases hk : k' = k
    · subst hk
      have hb : bump ((k', v) :: tl) k' d = (k', v + d) :: tl := by
        simp [bump]
      rw [hb]
      simp only [List.map_cons, List.nodup_cons]
      exact ⟨hk', hnd⟩
    · have hb : bump ((k', v) :: tl) k d = (k', v) :: bump tl k d := by
        simp only [bump]
        rw [if_neg hk]
      rw [hb]
      simp only [List.map_cons, List.nodup_cons]
      refine ⟨?_, ih hnd⟩
      rw [mem_keys_bump]
      rintro (hmem | rfl)
      · exact hk' hmem
      · exact hk rfl

theorem nodup_keys_passTable (tbl : List (String × List String)) (t : String) (d : ℤ)
    (acc : List (String × ℤ)) (h : (acc.map Prod.fst).Nodup) :
    ((passTable tbl t d acc).map Prod.fst).Nodup := by
  induction tbl generalizing acc with
  | nil => exact h
  | cons hd tl ih =>
    show ((passTable tl t d (if t ∈ hd.2 then bump acc hd.1 d else acc)).map Prod.fst).Nodup
    apply ih
    split_ifs with ht
    · exact nodup_keys_bump acc hd.1 d h
    · exact h

theorem nodup_keys_accumulate (types : List String) (table : TypeTable) :
    ((accumulate types table).map Prod.fst).Nodup := by
  have h : ∀ (ts : List String) (acc : List (String × ℤ)), (acc.map Prod.fst).Nodup →
      ((ts.foldl (processType table) acc).map Prod.fst).Nodup := by
    intro ts
    induction ts with
    | nil => exact fun acc hacc => hacc
    | cons t ts ih =>
      intro acc hacc
      simp only [List.foldl_cons]
      refine ih _ ?_
      unfold processType
      exact nodup_keys_passTable _ _ _ _
        (nodup_keys_passTable _ _ _ _ (nodup_keys_passTable _ _ _ _ hacc))
  exact h types [] (by simp)

theorem scoreOf_of_mem (acc : List (String × ℤ)) (h : (acc.map Prod.fst).Nodup)
    (p : String × ℤ) (hp : p ∈ acc) : scoreOf acc p.1 = p.2 := by
  obtain ⟨px, ps⟩ := p
  induction acc with
  | nil => cases hp
  | cons hd tl ih =>
    obtain ⟨k, v⟩ := hd
    simp only [List.map_cons, List.nodup_cons] at h
    rcases List.mem_cons.1 hp with heq | hmem
    · cases heq
      simp [scoreOf]
    · have hne : px ≠ k := by
        rintro rfl
        exact h.1 (by simpa using List.mem_map_of_mem Prod.fst hmem)
      simp only [scoreOf, if_neg hne]
      exact ih h.2 hmem

/-! ## Lemmas about the stable descending sort -/

theorem filter_orderedInsert_score (x : String × ℤ) (l : List (String × ℤ)) (s : ℤ) :
    (List.orderedInsert (fun a b => b.2 ≤ a.2) x l).filter (fun p => p.2 = s) =
      if x.2 = s then x :: l.filter (fun p => p.2 = s)
      else l.filter (fun p => p.2 = s) := by
  induction l with
  | nil =>
    simp only [List.orderedInsert, List.filter]
    by_cases hx : x.2 = s <;> simp [hx]
  | cons y ys ih =>
    simp only [List.orderedInsert]
    by_cases hr : y.2 ≤ x.2
    · rw [if_pos hr]
      by_cases hx : x.2 = s <;> by_cases hy : y.2 = s <;>
        simp [List.filter_cons, hx, hy]
    · rw [if_neg hr]
      have hlt : x.2 < y.2 := not_le.1 hr
      by_cases hx : x.2 = s
      · have hy : ¬(y.2 = s) := fun h => ne_of_gt hlt (h.trans hx.symm)
        simp [List.filter_cons, hx, hy, ih]
      · simp [List.filter_cons, hx, ih]

theorem filter_insertionSort_score (l : List (String × ℤ)) (s : ℤ) :
    (List.insertionSort (fun a b => b.2 ≤ a.2) l).filter (fun p => p.2 = s) =
      l.filter (fun p => p.2 = s) := by
  induction l with
  | nil => rfl
  | cons x xs ih =>
    simp only [List.insertionSort]
    rw [filter_orderedInsert_score]
    by_cases hx : x.2 = s <;> simp [List.filter_cons, hx, ih]

/-! ## Sum bounds -/

theorem sum_le_length_mul (l : List ℤ) (a : ℤ) (h : ∀ x ∈ l, x ≤ a) :
    l.sum ≤ (l.length : ℤ) * a := by
  induction l with
  | nil => simp
  | cons x xs ih =>
    simp only [List.sum_cons, List.length_cons]
    have hx := h x (List.mem_cons_self x xs)
    have hxs := ih (fun y hy => h y (List.mem_cons_of_mem x hy))
    push_cast
    have hexp : ((xs.length : ℤ) + 1) * a = (xs.length : ℤ) * a + a := by ring
    rw [hexp]
    linarith

theorem length_mul_le_sum (l : List ℤ) (a : ℤ) (h : ∀ x ∈ l, a ≤ x) :
    (l.length : ℤ) * a ≤ l.sum := by
  induction l with
  | nil => simp
  | cons x xs ih =>
    simp only [List.sum_cons, List.length_cons]
    have hx := h x (List.mem_cons_self x xs)
    have hxs := ih (fun y hy => h y (List.mem_cons_of_mem x hy))
    push_cast
    have hexp : ((xs.length : ℤ) + 1) * a = (xs.length : ℤ) * a + a := by ring
    rw [hexp]
    linarith

/-- Each tag's contribution to a score lies in [−2, 1], provided the tag is
not listed under both "not very effective" and "no effect" for the same
defending type. -/
theorem contrib_bounds (table : TypeTable) (d t : String)
    (hd : ¬(t ∈ listedAgainst table.notVeryEffective d ∧
      t ∈ listedAgainst table.noEffect d)) :
    -2 ≤ contrib table d t ∧ contrib table d t ≤ 1 := by
  unfold contrib
  by_cases h2 : t ∈ listedAgainst table.notVeryEffective d
  · by_cases h3 : t ∈ listedAgainst table.noEffect d
    · exact absurd ⟨h2, h3⟩ hd
    · by_cases h1 : t ∈ listedAgainst table.superEffective d <;>
        simp [h1, h2, h3]
  · by_cases h3 : t ∈ listedAgainst table.noEffect d <;>
      by_cases h1 : t ∈ listedAgainst table.superEffective d <;>
        simp [h1, h2, h3]

/-! ## Claims about the typing scorer -/

/-- C5: for every list of input type tags and every effectiveness table
(with dict-like unique keys in each mapping), the score that
`calculate_pogo_typing` computes for a defending type `d` is the sum over
the input tags of +1 when the "super effective" mapping lists the tag
against `d`, −1 when "not very effective" lists it, and −2 when "no effect"
lists it: every returned pair carries that sum, and the accumulator's score
at every `d` equals that sum. -/
theorem C5_score_is_additive_sum (types : List String) (table : TypeTable)
    (h1 : (table.superEffective.map Prod.fst).Nodup)
    (h2 : (table.notVeryEffective.map Prod.fst).Nodup)
    (h3 : (table.noEffect.map Prod.fst).Nodup) :
    (∀ p ∈ calculate_pogo_typing types table,
      p.2 = (types.map (contrib table p.1)).sum) ∧
    (∀ d : String,
      scoreOf (accumulate types table) d = (types.map (contrib table d)).sum) := by
  constructor
  · intro p hp
    unfold calculate_pogo_typing at hp
    rw [List.mem_insertionSort] at hp
    rw [← scoreOf_of_mem _ (nodup_keys_accumulate types table) p hp]
    exact scoreOf_accumulate types table p.1 h1 h2 h3
  · intro d
    exact scoreOf_accumulate types table d h1 h2 h3

/-- C5 witness: on ["Electric"] with a well-formed table fragment, the
accumulator's score for "Water" is the single-tag contribution sum. -/
theorem C5_score_is_additive_sum_witness :
    scoreOf (accumulate ["Electric"] goodTable) "Water"
      = ((["Electric"] : List String).map (contrib goodTable "Water")).sum :=
  (C5_score_is_additive_sum ["Electric"] goodTable (by decide) (by decide)
    (by decide)).2 "Water"

/-- C6: the sequence returned by `calculate_pogo_typing` is sorted by score
in descending order, and entries with equal scores keep their first-seen
insertion order: filtering the output at any score value yields exactly the
same-order filtering of the insertion-ordered accumulator (stable sort). -/
theorem C6_sorted_descending_stable (types : List String) (table : TypeTable) :
    List.Sorted (fun a b : String × ℤ => b.2 ≤ a.2) (calculate_pogo_typing types table) ∧
    ∀ s : ℤ, (calculate_pogo_typing types table).filter (fun p => p.2 = s)
      = (accumulate types table).filter (fun p => p.2 = s) := by
  constructor
  · haveI ht : IsTotal (String × ℤ) (fun a b => b.2 ≤ a.2) :=
      ⟨fun a b => le_total b.2 a.2⟩
    haveI htr : IsTrans (String × ℤ) (fun a b => b.2 ≤ a.2) :=
      ⟨fun _ _ _ hab hbc => le_trans hbc hab⟩
    exact List.sorted_insertionSort _ _
  · intro s
    exact filter_insertionSort_score _ s

/-- C10 counterexample: with one input tag and a (degenerate) table listing
the tag under both "not very effective" and "no effect" against "Ground",
the output contains ("Ground", −3), and −3 < −2·n for n = 1 input tag:
the claimed lower bound −2·n fails for arbitrary tables. -/
theorem C10_counterexample :
    (("Ground", (-3 : ℤ)) ∈ calculate_pogo_typing ["Electric"] badTable) ∧
    (-3 : ℤ) < -2 * ((["Electric"] : List String).length : ℤ) := by
  exact ⟨by decide, by decide⟩

/-- C10 (amended): additionally assuming no defending type lists the same
tag under both "not very effective" and "no effect" (true of real
effectiveness tables, whose tiers are mutually exclusive), every score in
the sequence returned by `calculate_pogo_typing` on `n` input tags lies
between −2·n and n inclusive. -/
theorem C10_score_bounds (types : List String) (table : TypeTable)
    (h1 : (table.superEffective.map Prod.fst).Nodup)
    (h2 : (table.notVeryEffective.map Prod.fst).Nodup)
    (h3 : (table.noEffect.map Prod.fst).Nodup)
    (hdisj : ∀ d t, ¬(t ∈ listedAgainst table.notVeryEffective d ∧
      t ∈ listedAgainst table.noEffect d)) :
    ∀ p ∈ calculate_pogo_typing types table,
      -2 * (types.length : ℤ) ≤ p.2 ∧ p.2 ≤ (types.length : ℤ) := by
  intro p hp
  unfold calculate_pogo_typing at hp
  rw [List.mem_insertionSort] at hp
  have hval : p.2 = (types.map (contrib table p.1)).sum := by
    rw [← scoreOf_of_mem _ (nodup_keys_accumulate types table) p hp]
    exact scoreOf_accumulate types table p.1 h1 h2 h3
  have hlen : ((types.map (contrib table p.1)).length : ℤ) = (types.length : ℤ) := by
    rw [List.length_map]
  constructor
  · rw [hval]
    have hlow : ∀ x ∈ types.map (contrib table p.1), -2 ≤ x := by
      intro x hx
      obtain ⟨t, _, rfl⟩ := List.mem_map.1 hx
      exact (contrib_bounds table p.1 t (hdisj p.1 t)).1
    calc -2 * (types.length : ℤ)
        = ((types.map (contrib table p.1)).length : ℤ) * (-2) := by rw [hlen]; ring
      _ ≤ (types.map (contrib table p.1)).sum :=
          length_mul_le_sum _ _ hlow
  · rw [hval]
    have hup : ∀ x ∈ types.map (contrib table p.1), x ≤ 1 := by
      intro x hx
      obtain ⟨t, _, rfl⟩ := List.mem_map.1 hx
      exact (contrib_bounds table p.1 t (hdisj p.1 t)).2
    calc (types.map (contrib table p.1)).sum
        ≤ ((types.map (contrib table p.1)).length : ℤ) * 1 :=
          sum_le_length_mul _ _ hup
      _ = (types.length : ℤ) := by rw [hlen]; ring

/-- C10 witness: on ["Electric"] with a well-formed table fragment whose
"not very effective" mapping is empty, the entry ("Ground", −2) of the
output satisfies the bounds −2·1 ≤ −2 ≤ 1. -/
theorem C10_score_bounds_witness :
    -2 * ((["Electric"] : List String).length : ℤ)
        ≤ (("Ground", (-2 : ℤ)) : String × ℤ).2 ∧
      (("Ground", (-2 : ℤ)) : String × ℤ).2 ≤ ((["Electric"] : List String).length : ℤ) :=
  C10_score_bounds ["Electric"] goodTable (by decide) (by decide) (by decide)
    (fun _ t h => absurd h.1 (List.not_mem_nil t)) ("Ground", -2) (by decide)

end ChoosePokemon
